import Mathlib

/-!
Shallow embedding of `mooch/switcher.py` (the MoochSwitcher credential-rotating
execution engine and its two adapters), with theorems checking the
natural-language specification against it.

Python strings are modelled as `List Char` (a credential / API key is an opaque
string), Python lists as Lean lists, exceptions as explicit outcome values.
-/

namespace Mooch

/-- A credential (API key): an opaque string, modelled as its character list. -/
abbrev Credential := List Char

/-- Outcome of one `call_func(api_key)` invocation, as `_execute` observes it:
either it returns a result, or it raises `openai.RateLimitError` (caught by the
`except` clause), or it raises any other exception (uncaught, hence fatal). -/
inductive CallOutcome (α ε : Type) where
  | success : α → CallOutcome α ε
  | rateLimit : ε → CallOutcome α ε
  | fatal : ε → CallOutcome α ε
deriving DecidableEq, Repr

/-- What a call to `MoochSwitcher._execute` produces for its caller: a returned
result, a raised exception, or the `raise last_error` with `last_error = None`
that Python turns into a `TypeError` (the empty-pool path). -/
inductive ExecOutcome (α ε : Type) where
  | ok : α → ExecOutcome α ε
  | raised : ε → ExecOutcome α ε
  | nullError : ExecOutcome α ε
deriving DecidableEq, Repr

/-- One line printed by `_execute` when `verbose` is on, structured: `blank` is
the bare `print()`, `trying i total masked` is the
"[Mooch] Trying API key i/total: masked..." line (where `masked` is the
displayed part of the credential, `api_key[:10]`), `succeeded i` the success
line, `rateLimitHit i` the switching line, `allFailed total` the exhaustion
line. -/
inductive LogEvent where
  | blank : LogEvent
  | trying : Nat → Nat → Credential → LogEvent
  | succeeded : Nat → LogEvent
  | rateLimitHit : Nat → LogEvent
  | allFailed : Nat → LogEvent
deriving DecidableEq, Repr

/-- The observable behaviour of one `_execute` run: its outcome, the keys it
actually invoked `call_func` on (in invocation order), and the log it printed. -/
structure ExecResult (α ε : Type) where
  outcome : ExecOutcome α ε
  tried : List Credential
  log : List LogEvent
deriving DecidableEq, Repr

/-- The displayed part of a credential in the verbose "Trying" line:
Python `api_key[:10]`. -/
def maskKey (k : Credential) : Credential := k.take 10

/-- The `for i, api_key in enumerate(api_keys)` loop of `_execute`, lines
44-68 of switcher.py. `total` is `len(api_keys)` (constant through the loop),
the `Nat` argument is the enumeration index `i`, the `Option ε` is
`last_error`. -/
def executeLoop (invoke : Credential → CallOutcome α ε) (verbose : Bool)
    (total : Nat) : List Credential → Nat → Option ε → ExecResult α ε
  | [], _, none =>
      { outcome := .nullError, tried := [],
        log := if verbose then [.allFailed total] else [] }
  | [], _, some e =>
      { outcome := .raised e, tried := [],
        log := if verbose then [.allFailed total] else [] }
  | key :: rest, i, _ =>
      let pre : List LogEvent :=
        if verbose then [.blank, .trying (i + 1) total (maskKey key)] else []
      match invoke key with
      | .success v =>
          { outcome := .ok v, tried := [key],
            log := pre ++ if verbose then [.succeeded (i + 1)] else [] }
      | .fatal e =>
          { outcome := .raised e, tried := [key], log := pre }
      | .rateLimit e =>
          let r := executeLoop invoke verbose total rest (i + 1) (some e)
          { outcome := r.outcome, tried := key :: r.tried,
            log := (pre ++ if verbose then [.rateLimitHit (i + 1)] else [])
                    ++ r.log }

/-- `MoochSwitcher._execute` run on an already-normalized key list. -/
def execute (invoke : Credential → CallOutcome α ε) (verbose : Bool)
    (keys : List Credential) : ExecResult α ε :=
  executeLoop invoke verbose keys.length keys 0 none

/-- The `api_keys` argument of `_execute` in its two credential-valued shapes:
a single string or a list of strings. -/
inductive KeysInput where
  | single : Credential → KeysInput
  | list : List Credential → KeysInput

/-- Normalization at the top of `_execute` (lines 41-42): a single string is
wrapped into a one-element list, a list passes through unchanged (no emptiness
or element check). -/
def normalizeKeys : KeysInput → List Credential
  | .single s => [s]
  | .list l => l

/-- `MoochSwitcher._execute` on a credential-valued `api_keys` argument:
normalize, then run the loop. -/
def moochExecute (invoke : Credential → CallOutcome α ε) (verbose : Bool)
    (input : KeysInput) : ExecResult α ε :=
  execute invoke verbose (normalizeKeys input)

/-- An element of the `api_keys` iterable as Python sees it: the code never
inspects element types, so an element is either a credential string or any
other value (a non-string such as an int, modelled by `intVal`). -/
inductive PyItem where
  | strVal : Credential → PyItem
  | intVal : Nat → PyItem
deriving DecidableEq, Repr

/-- The `api_keys` argument of `_execute` with no typing assumption: a string,
an iterable of arbitrary elements, or a value that is not iterable at all. -/
inductive PyInput where
  | str : Credential → PyInput
  | iterable : List PyItem → PyInput
  | nonIterable : PyInput

/-- The error raised when `api_keys` is not iterable at all: Python's
`TypeError` at `enumerate(api_keys)` (line 46), before any invocation; the
spec calls this condition `InvalidInput`. -/
inductive NormError where
  | invalidInput
deriving DecidableEq, Repr

/-- Normalization of the untyped `api_keys` argument, exactly as the source
treats it: a string is wrapped (line 41-42), any iterable passes through with
its elements unexamined, and only a non-iterable value fails, at
`enumerate`, before the loop can invoke anything. -/
def normalizePyInput : PyInput → Except NormError (List PyItem)
  | .str s => .ok [.strVal s]
  | .iterable l => .ok l
  | .nonIterable => .error .invalidInput

/-- The `_execute` loop run silently (`verbose=False`) on the normalized
elements, which may or may not be strings: each element is handed to
`call_func` as-is. Returns the outcome and the elements invoked, in order.
(In the verbose run a non-string element instead dies at `api_key[:10]`
inside the attempt; either way the attempt begins.) -/
def executeItemsSilent (invoke : PyItem → CallOutcome α ε) :
    List PyItem → Option ε → ExecOutcome α ε × List PyItem
  | [], none => (.nullError, [])
  | [], some e => (.raised e, [])
  | item :: rest, _ =>
      match invoke item with
      | .success v => (.ok v, [item])
      | .fatal e => (.raised e, [item])
      | .rateLimit e =>
          let r := executeItemsSilent invoke rest (some e)
          (r.1, item :: r.2)

/-- `MoochSwitcher._execute` (silent) on the untyped `api_keys` argument. -/
def moochExecutePy (invoke : PyItem → CallOutcome α ε) (input : PyInput) :
    Except NormError (ExecOutcome α ε × List PyItem) :=
  match normalizePyInput input with
  | .error e => .error e
  | .ok items => .ok (executeItemsSilent invoke items none)

/-- Concrete invoker over untyped elements that succeeds on everything. -/
def pyOk : PyItem → CallOutcome Nat Nat := fun _ => .success 0

/-- What construction of a wrapper can fail with. `indexError` models the
`IndexError` Python raises at `api_keys[0]` (switcher.py line 82) on an empty
list; `emptyPool` is the distinct eager rejection the spec's taxonomy mandates
(its `EmptyPool`), which the code never raises. -/
inductive InitError where
  | indexError
  | emptyPool
deriving DecidableEq, Repr

/-- The state `MoochForOpenAIClient.__init__` leaves behind when it succeeds:
the stored key list and the key the underlying `openai.OpenAI` client was
initialized with (`api_keys[0]`). -/
structure OpenAIClientState where
  apiKeys : List Credential
  initialKey : Credential
deriving DecidableEq, Repr

/-- `MoochForOpenAIClient.__init__` (lines 74-85): stores the key list and
calls `super().__init__(api_key=api_keys[0], ...)`; on an empty list the
subscript `api_keys[0]` raises `IndexError` at construction time. -/
def moochForOpenAIClientInit (apiKeys : List Credential) :
    Except InitError OpenAIClientState :=
  match apiKeys with
  | [] => .error .indexError
  | k :: _ => .ok { apiKeys := apiKeys, initialKey := k }

/-- `MoochForLiteLLMCompletion.__init__` (lines 104-107): stores the key list
with no validation at all; construction always succeeds, empty list included. -/
def moochForLiteLLMInit (apiKeys : List Credential) :
    Except InitError (List Credential) :=
  .ok apiKeys

/-- A Python keyword-argument mapping (`**kwargs`): an insertion-ordered dict
from argument name to value, here with credential-typed values. -/
abbrev Kwargs := List (String × Credential)

/-- Python dict assignment `d[k] = v`: overwrite in place if the key exists
(position preserved), append otherwise. -/
def dictSet : Kwargs → String → Credential → Kwargs
  | [], k, v => [(k, v)]
  | (k2, v2) :: rest, k, v =>
      if k2 = k then (k, v) :: rest else (k2, v2) :: dictSet rest k v

/-- Python dict lookup `d[k]` / `d.get(k)`. -/
def dictGet : Kwargs → String → Option Credential
  | [], _ => none
  | (k2, v2) :: rest, k => if k2 = k then some v2 else dictGet rest k

/-- The name of the keyword argument the LiteLLM adapter overwrites. -/
def apiKeyField : String := "api_key"

/-- `MoochForLiteLLMCompletion._call` (lines 117-120): the `**kwargs` at the
call boundary copies the caller's mapping into a fresh dict, then
`kwargs['api_key'] = api_key` overwrites the copy, and `litellm.completion` is
called with it. Returns (kwargs passed to `litellm.completion`, the caller's
mapping after the call). -/
def litellmCall (apiKey : Credential) (callerKwargs : Kwargs) :
    Kwargs × Kwargs :=
  let fresh := callerKwargs
  (dictSet fresh apiKeyField apiKey, callerKwargs)

/-- The mutable state of one `_execute` activation, for the frame property:
the caller's key list, the loop index, `last_error`, and—once the run has
returned or raised—its outcome. -/
structure EngineState (α ε : Type) where
  apiKeys : List Credential
  idx : Nat
  lastError : Option ε
  halted : Option (ExecOutcome α ε)
deriving Repr

/-- One small step of the `_execute` loop on the explicit state: look up the
current key (`None` past the end ends the loop and raises), invoke it, and
update the state exactly as the loop body does. The key list itself is read,
never written. -/
def engineStep (invoke : Credential → CallOutcome α ε) (s : EngineState α ε) :
    EngineState α ε :=
  match s.halted with
  | some _ => s
  | none =>
      match s.apiKeys.get? s.idx with
      | none =>
          { s with halted := some (match s.lastError with
              | some e => .raised e
              | none => .nullError) }
      | some key =>
          match invoke key with
          | .success v => { s with halted := some (.ok v) }
          | .rateLimit e => { s with idx := s.idx + 1, lastError := some e }
          | .fatal e => { s with halted := some (.raised e) }

/-- The state at entry to the loop (line 44-46): index 0, `last_error = None`. -/
def engineStart (keys : List Credential) : EngineState α ε :=
  { apiKeys := keys, idx := 0, lastError := none, halted := none }

/-- Run `n` small steps of the loop. -/
def engineRun (invoke : Credential → CallOutcome α ε) :
    Nat → EngineState α ε → EngineState α ε
  | 0, s => s
  | n + 1, s => engineRun invoke n (engineStep invoke s)

/-- Concrete invoker used at concrete inputs: rate-limits on key "a" and on
key "b", fails fatally on key "f", succeeds with 7 on anything else. -/
def demoInvoke : Credential → CallOutcome Nat Nat := fun k =>
  if k = ['a'] then .rateLimit 5
  else if k = ['b'] then .rateLimit 6
  else if k = ['f'] then .fatal 9
  else .success 7

/-- Concrete invoker that succeeds on every credential. -/
def alwaysOk : Credential → CallOutcome Nat Nat := fun _ => .success 0

/-- A concrete 5-character credential, shorter than the 10-character display
cut-off. -/
def shortKey : Credential := ['s', 'h', 'o', 'r', 't']

/-- A concrete 12-character credential, longer than the 10-character display
cut-off. -/
def longKey : Credential :=
  ['s', 'k', 'd', 'u', 'm', 'm', 'y', 'v', 'a', 'l', 'u', 'e']

/-- Another keyword-argument name, distinct from `api_key`. -/
def modelField : String := "model"

/-- Concrete caller kwargs carrying a stale `api_key` and a `model` entry. -/
def demoKwargs : Kwargs := [(apiKeyField, ['o']), (modelField, ['m'])]

/-! ### Helper lemmas about the loop -/

/-- Turning `verbose` on changes none of the loop's control flow: outcome and
invocation trace are those of the silent run, and the silent run logs
nothing. -/
theorem executeLoop_verbose_invariant (invoke : Credential → CallOutcome α ε)
    (verbose : Bool) :
    ∀ (keys : List Credential) (total i : Nat) (last : Option ε),
      (executeLoop invoke verbose total keys i last).outcome
        = (executeLoop invoke false total keys i last).outcome ∧
      (executeLoop invoke verbose total keys i last).tried
        = (executeLoop invoke false total keys i last).tried ∧
      (executeLoop invoke false total keys i last).log = [] := by
  intro keys
  induction keys with
  | nil =>
      intro total i last
      cases last <;> simp [executeLoop]
  | cons key rest ih =>
      intro total i last
      cases h : invoke key with
      | success v => simp [executeLoop, h]
      | fatal e => simp [executeLoop, h]
      | rateLimit e =>
          have ih2 := ih total (i + 1) (some e)
          simp [executeLoop, h, ih2.1, ih2.2.1, ih2.2.2]

/-- If every key of the block `ks` rate-limits and `ksucc` succeeds with `v`,
the loop on `ks ++ ksucc :: rest` returns `v` having invoked exactly
`ks ++ [ksucc]`, whatever `rest`, the index and the saved error are. -/
theorem executeLoop_fallback_success (invoke : Credential → CallOutcome α ε)
    (verbose : Bool) (v : α) (ksucc : Credential) (rest : List Credential)
    (hsucc : invoke ksucc = .success v) :
    ∀ (ks : List Credential) (total i : Nat) (last : Option ε),
      (∀ k ∈ ks, ∃ e, invoke k = .rateLimit e) →
      (executeLoop invoke verbose total (ks ++ ksucc :: rest) i last).outcome
        = .ok v ∧
      (executeLoop invoke verbose total (ks ++ ksucc :: rest) i last).tried
        = ks ++ [ksucc] := by
  intro ks
  induction ks with
  | nil =>
      intro total i last _
      simp [executeLoop, hsucc]
  | cons k ks ih =>
      intro total i last hall
      obtain ⟨e, he⟩ := hall k (List.mem_cons_self k ks)
      have ih2 := ih total (i + 1) (some e)
        (fun x hx => hall x (List.mem_cons_of_mem _ hx))
      simp [executeLoop, he, ih2.1, ih2.2]

/-- If every key of the block `ks` rate-limits and `kfatal` fails fatally, the
loop on `ks ++ kfatal :: rest` raises `kfatal`'s error having invoked exactly
`ks ++ [kfatal]`, whatever `rest` is. -/
theorem executeLoop_fatal_stops (invoke : Credential → CallOutcome α ε)
    (verbose : Bool) (e0 : ε) (kfatal : Credential) (rest : List Credential)
    (hfatal : invoke kfatal = .fatal e0) :
    ∀ (ks : List Credential) (total i : Nat) (last : Option ε),
      (∀ k ∈ ks, ∃ e, invoke k = .rateLimit e) →
      (executeLoop invoke verbose total (ks ++ kfatal :: rest) i last).outcome
        = .raised e0 ∧
      (executeLoop invoke verbose total (ks ++ kfatal :: rest) i last).tried
        = ks ++ [kfatal] := by
  intro ks
  induction ks with
  | nil =>
      intro total i last _
      simp [executeLoop, hfatal]
  | cons k ks ih =>
      intro total i last hall
      obtain ⟨e, he⟩ := hall k (List.mem_cons_self k ks)
      have ih2 := ih total (i + 1) (some e)
        (fun x hx => hall x (List.mem_cons_of_mem _ hx))
      simp [executeLoop, he, ih2.1, ih2.2]

/-- If every key of the block `ks` rate-limits and the final key `klast`
rate-limits with `elast`, the loop on `ks ++ [klast]` raises `elast` having
invoked the whole list. -/
theorem executeLoop_exhaustion (invoke : Credential → CallOutcome α ε)
    (verbose : Bool) (elast : ε) (klast : Credential)
    (hlast : invoke klast = .rateLimit elast) :
    ∀ (ks : List Credential) (total i : Nat) (last : Option ε),
      (∀ k ∈ ks, ∃ e, invoke k = .rateLimit e) →
      (executeLoop invoke verbose total (ks ++ [klast]) i last).outcome
        = .raised elast ∧
      (executeLoop invoke verbose total (ks ++ [klast]) i last).tried
        = ks ++ [klast] := by
  intro ks
  induction ks with
  | nil =>
      intro total i last _
      simp [executeLoop, hlast]
  | cons k ks ih =>
      intro total i last hall
      obtain ⟨e, he⟩ := hall k (List.mem_cons_self k ks)
      have ih2 := ih total (i + 1) (some e)
        (fun x hx => hall x (List.mem_cons_of_mem _ hx))
      simp [executeLoop, he, ih2.1, ih2.2]

/-- Every credential displayed by a `trying` log event is the mask of some key
of the list the loop ran on. -/
theorem executeLoop_trying_masked (invoke : Credential → CallOutcome α ε)
    (verbose : Bool) :
    ∀ (keys : List Credential) (total i : Nat) (last : Option ε)
      (a t : Nat) (m : Credential),
      LogEvent.trying a t m ∈ (executeLoop invoke verbose total keys i last).log →
      ∃ k, k ∈ keys ∧ m = maskKey k := by
  intro keys
  induction keys with
  | nil =>
      intro total i last a t m hmem
      cases last <;> cases verbose <;> simp [executeLoop] at hmem
  | cons key rest ih =>
      intro total i last a t m hmem
      cases h : invoke key with
      | success v =>
          cases verbose with
          | false => simp [executeLoop, h] at hmem
          | true =>
              simp [executeLoop, h] at hmem
              exact ⟨key, List.mem_cons_self key rest, hmem.2.2⟩
      | fatal e =>
          cases verbose with
          | false => simp [executeLoop, h] at hmem
          | true =>
              simp [executeLoop, h] at hmem
              exact ⟨key, List.mem_cons_self key rest, hmem.2.2⟩
      | rateLimit e =>
          cases verbose with
          | false =>
              simp [executeLoop, h] at hmem
              obtain ⟨k, hk, hm⟩ := ih total (i + 1) (some e) a t m hmem
              exact ⟨k, List.mem_cons_of_mem key hk, hm⟩
          | true =>
              simp [executeLoop, h] at hmem
              rcases hmem with hpre | hrec
              · exact ⟨key, List.mem_cons_self key rest, hpre.2.2⟩
              · obtain ⟨k, hk, hm⟩ := ih total (i + 1) (some e) a t m hrec
                exact ⟨k, List.mem_cons_of_mem key hk, hm⟩

/-- One loop step never writes the key list. -/
theorem engineStep_apiKeys (invoke : Credential → CallOutcome α ε)
    (s : EngineState α ε) : (engineStep invoke s).apiKeys = s.apiKeys := by
  unfold engineStep
  split
  · rfl
  · split
    · rfl
    · split <;> rfl

/-- Any number of loop steps never writes the key list. -/
theorem engineRun_apiKeys (invoke : Credential → CallOutcome α ε) :
    ∀ (n : Nat) (s : EngineState α ε),
      (engineRun invoke n s).apiKeys = s.apiKeys := by
  intro n
  induction n with
  | zero => intro s; rfl
  | succ n ih =>
      intro s
      calc (engineRun invoke (n + 1) s).apiKeys
          = (engineRun invoke n (engineStep invoke s)).apiKeys := rfl
        _ = (engineStep invoke s).apiKeys := ih (engineStep invoke s)
        _ = s.apiKeys := engineStep_apiKeys invoke s

/-- Setting a dict key then reading it back yields the written value. -/
theorem dictGet_dictSet_same :
    ∀ (d : Kwargs) (k : String) (v : Credential),
      dictGet (dictSet d k v) k = some v := by
  intro d k v
  induction d with
  | nil => simp [dictSet, dictGet]
  | cons p rest ih =>
      obtain ⟨k2, v2⟩ := p
      by_cases h : k2 = k
      · simp [dictSet, dictGet, h]
      · simp [dictSet, dictGet, h, ih]

/-- Setting a dict key leaves every other key's value unchanged. -/
theorem dictGet_dictSet_other :
    ∀ (d : Kwargs) (k k2 : String) (v : Credential), k2 ≠ k →
      dictGet (dictSet d k v) k2 = dictGet d k2 := by
  intro d k k2 v hne
  have hne2 : ¬(k = k2) := fun h => hne h.symm
  induction d with
  | nil => simp [dictSet, dictGet, hne2]
  | cons p rest ih =>
      obtain ⟨k3, v3⟩ := p
      by_cases h3 : k3 = k
      · subst h3
        simp [dictSet, dictGet, hne2]
      · by_cases h4 : k3 = k2
        · subst h4
          simp [dictSet, dictGet, h3]
        · simp [dictSet, dictGet, h3, h4, ih]

/-! ### Claim theorems -/

/-- C1: for every pool where the first `ks.length` credentials fail with a
rate-limit failure and the next credential succeeds, `_execute` invokes
exactly the credentials `ks ++ [ksucc]`, in pool order, and returns `ksucc`'s
result, regardless of the remaining credentials `rest`; taking `ks = []`
gives first-success-wins after exactly one invocation. -/
theorem execute_sequential_fallback (invoke : Credential → CallOutcome α ε)
    (verbose : Bool) (ks : List Credential) (ksucc : Credential)
    (rest : List Credential) (v : α)
    (hfail : ∀ k ∈ ks, ∃ e, invoke k = .rateLimit e)
    (hsucc : invoke ksucc = .success v) :
    (execute invoke verbose (ks ++ ksucc :: rest)).outcome = .ok v ∧
    (execute invoke verbose (ks ++ ksucc :: rest)).tried = ks ++ [ksucc] ∧
    (execute invoke verbose (ks ++ ksucc :: rest)).tried.length
      = ks.length + 1 := by
  have h := executeLoop_fallback_success invoke verbose v ksucc rest hsucc ks
    (ks ++ ksucc :: rest).length 0 none hfail
  have h3 : (execute invoke verbose (ks ++ ksucc :: rest)).tried
      = ks ++ [ksucc] := h.2
  exact ⟨h.1, h.2, by rw [h3]; simp⟩

/-- C1 witness: with the concrete pool ["a", "c", "d"] under `demoInvoke`
("a" rate-limits, "c" succeeds with 7), execution returns 7 after invoking
exactly ["a", "c"]. -/
theorem execute_sequential_fallback_witness :
    (execute demoInvoke false [['a'], ['c'], ['d']]).outcome = .ok 7 ∧
    (execute demoInvoke false [['a'], ['c'], ['d']]).tried = [['a'], ['c']] ∧
    (execute demoInvoke false [['a'], ['c'], ['d']]).tried.length = 2 := by
  have h := execute_sequential_fallback demoInvoke false [['a']] ['c'] [['d']] 7
    (fun k hk => by
      have h2 := List.mem_singleton.mp hk
      subst h2
      exact ⟨5, by decide⟩)
    (by decide)
  simpa using h

/-- C2: for every non-empty pool (written `ks ++ [klast]`) in which every
credential fails with a rate-limit failure, `_execute` invokes all of them,
in pool order, and the error it propagates is exactly the error raised by the
last credential's invocation. -/
theorem execute_exhaustion_propagates_last_error
    (invoke : Credential → CallOutcome α ε) (verbose : Bool)
    (ks : List Credential) (klast : Credential) (elast : ε)
    (hfail : ∀ k ∈ ks, ∃ e, invoke k = .rateLimit e)
    (hlast : invoke klast = .rateLimit elast) :
    (execute invoke verbose (ks ++ [klast])).outcome = .raised elast ∧
    (execute invoke verbose (ks ++ [klast])).tried = ks ++ [klast] := by
  exact executeLoop_exhaustion invoke verbose elast klast hlast ks
    (ks ++ [klast]).length 0 none hfail

/-- C2 witness: with the concrete pool ["a", "b"] under `demoInvoke` (both
keys rate-limit, "b" with error 6), execution invokes both keys and
propagates error 6, the last key's error. -/
theorem execute_exhaustion_propagates_last_error_witness :
    (execute demoInvoke false [['a'], ['b']]).outcome = .raised 6 ∧
    (execute demoInvoke false [['a'], ['b']]).tried = [['a'], ['b']] := by
  have h := execute_exhaustion_propagates_last_error demoInvoke false
    [['a']] ['b'] 6
    (fun k hk => by
      have h2 := List.mem_singleton.mp hk
      subst h2
      exact ⟨5, by decide⟩)
    (by decide)
  simpa using h

/-- C3: for every pool where the first `ks.length` credentials fail with a
rate-limit failure and the next credential `kfatal` fails with a non-rate-limit
(fatal) failure, `_execute` invokes exactly `ks ++ [kfatal]`, tries no
credential of the remainder `rest`, and propagates `kfatal`'s error. -/
theorem execute_fatal_short_circuit (invoke : Credential → CallOutcome α ε)
    (verbose : Bool) (ks : List Credential) (kfatal : Credential)
    (rest : List Credential) (e0 : ε)
    (hfail : ∀ k ∈ ks, ∃ e, invoke k = .rateLimit e)
    (hfatal : invoke kfatal = .fatal e0) :
    (execute invoke verbose (ks ++ kfatal :: rest)).outcome = .raised e0 ∧
    (execute invoke verbose (ks ++ kfatal :: rest)).tried = ks ++ [kfatal] ∧
    (execute invoke verbose (ks ++ kfatal :: rest)).tried.length
      = ks.length + 1 := by
  have h := executeLoop_fatal_stops invoke verbose e0 kfatal rest hfatal ks
    (ks ++ kfatal :: rest).length 0 none hfail
  have h3 : (execute invoke verbose (ks ++ kfatal :: rest)).tried
      = ks ++ [kfatal] := h.2
  exact ⟨h.1, h.2, by rw [h3]; simp⟩

/-- C3 witness: with the concrete pool ["a", "f", "c"] under `demoInvoke`
("a" rate-limits, "f" fails fatally with error 9), execution invokes exactly
["a", "f"], never tries "c", and propagates error 9. -/
theorem execute_fatal_short_circuit_witness :
    (execute demoInvoke false [['a'], ['f'], ['c']]).outcome = .raised 9 ∧
    (execute demoInvoke false [['a'], ['f'], ['c']]).tried = [['a'], ['f']] ∧
    (execute demoInvoke false [['a'], ['f'], ['c']]).tried.length = 2 := by
  have h := execute_fatal_short_circuit demoInvoke false [['a']] ['f'] [['c']] 9
    (fun k hk => by
      have h2 := List.mem_singleton.mp hk
      subst h2
      exact ⟨5, by decide⟩)
    (by decide)
  simpa using h

/-- C4 counterexample: at the concrete empty credential list the code does not
fail with the spec's `EmptyPool`: constructing the OpenAI-client wrapper raises
an index error instead, constructing the LiteLLM wrapper succeeds outright, and
executing on the empty pool silently runs zero attempts and then raises the
null `last_error`. -/
theorem empty_pool_counterexample :
    moochForOpenAIClientInit [] = .error .indexError ∧
    moochForOpenAIClientInit [] ≠ .error .emptyPool ∧
    moochForLiteLLMInit [] = .ok [] ∧
    (execute alwaysOk false []).outcome = .nullError ∧
    (execute alwaysOk false []).tried = [] := by
  refine ⟨rfl, ?_, rfl, rfl, rfl⟩
  intro h
  simp [moochForOpenAIClientInit] at h

/-- C4 amended: an empty credential sequence is rejected eagerly at
construction of the OpenAI-client wrapper, but with an index error rather than
a dedicated `EmptyPool` error; the LiteLLM wrapper accepts it, and the engine
then performs zero invocations and raises the null `last_error` instead of a
dedicated error. -/
theorem empty_pool_actual_behavior (invoke : Credential → CallOutcome α ε)
    (verbose : Bool) :
    moochForOpenAIClientInit [] = .error .indexError ∧
    moochForLiteLLMInit [] = .ok [] ∧
    (execute invoke verbose []).outcome = .nullError ∧
    (execute invoke verbose []).tried = [] ∧
    (execute invoke verbose []).log
      = (if verbose then [.allFailed 0] else []) :=
  ⟨rfl, rfl, rfl, rfl, rfl⟩

/-- C5 counterexample: the concrete input `[123]` — a sequence, but not a
sequence of credentials — is not rejected at all: normalization passes it
through unchanged, and the engine makes an attempt, invoking `call_func` on
the non-credential element itself. -/
theorem invalid_iterable_counterexample :
    normalizePyInput (.iterable [.intVal 123]) = .ok [.intVal 123] ∧
    moochExecutePy pyOk (.iterable [.intVal 123])
      = .ok (.ok 0, [.intVal 123]) :=
  ⟨rfl, rfl⟩

/-- C5 amended: only an `api_keys` value that is not iterable at all fails
immediately at iteration, before any attempt and independently of the invoker
(Python's `TypeError`, the spec's `InvalidInput`); an iterable whose elements
are not credentials is not rejected — the engine attempts its first element
as-is, whatever it is. -/
theorem invalid_input_actual_behavior (invoke invoke2 : PyItem → CallOutcome α ε) :
    normalizePyInput .nonIterable = .error .invalidInput ∧
    moochExecutePy invoke .nonIterable = .error .invalidInput ∧
    moochExecutePy invoke .nonIterable = moochExecutePy invoke2 .nonIterable ∧
    (∀ (item : PyItem) (rest : List PyItem),
      moochExecutePy invoke (.iterable (item :: rest))
        = .ok (executeItemsSilent invoke (item :: rest) none) ∧
      (executeItemsSilent invoke (item :: rest) none).2.head? = some item) := by
  refine ⟨rfl, rfl, rfl, fun item rest => ⟨rfl, ?_⟩⟩
  cases h : invoke item <;> simp [executeItemsSilent, h]

/-- C6: normalizing a single credential and normalizing the one-element
sequence holding it produce the same one-element pool, and `_execute` behaves
identically on the two inputs for every invoker and verbosity. -/
theorem normalize_single_idempotent (s : Credential) :
    normalizeKeys (.single s) = [s] ∧
    normalizeKeys (.list [s]) = normalizeKeys (.single s) ∧
    (∀ (α ε : Type) (invoke : Credential → CallOutcome α ε) (verbose : Bool),
      moochExecute invoke verbose (.single s)
        = moochExecute invoke verbose (.list [s])) :=
  ⟨rfl, rfl, fun _ _ _ _ => rfl⟩

/-- C7: the verbose observer has no control-flow effect: for every pool and
invoker, the run with verbose logging has the same outcome and the same
invocation trace as the silent run, and the silent run emits no output. -/
theorem observer_no_control_flow (invoke : Credential → CallOutcome α ε)
    (verbose : Bool) (keys : List Credential) :
    (execute invoke verbose keys).outcome
      = (execute invoke false keys).outcome ∧
    (execute invoke verbose keys).tried = (execute invoke false keys).tried ∧
    (execute invoke false keys).log = [] :=
  executeLoop_verbose_invariant invoke verbose keys keys.length 0 none

/-- C8 counterexample: for the concrete 5-character credential "short", the
verbose run's observer output contains a `trying` event displaying the
credential's full value — `api_key[:10]` masks nothing when the key has at
most 10 characters. -/
theorem mask_counterexample :
    LogEvent.trying 1 1 shortKey ∈ (execute alwaysOk true [shortKey]).log ∧
    maskKey shortKey = shortKey :=
  ⟨by decide, by decide⟩

/-- C8 amended: every credential displayed by an observer `trying` event is
the first-10-characters prefix of a pool credential; for credentials longer
than 10 characters this is never the full value, but a credential of at most
10 characters is displayed in full. -/
theorem execute_masks_credentials (invoke : Credential → CallOutcome α ε)
    (verbose : Bool) (keys : List Credential) (a t : Nat) (m : Credential)
    (hmem : LogEvent.trying a t m ∈ (execute invoke verbose keys).log) :
    ∃ k, k ∈ keys ∧ m = maskKey k ∧ (10 < k.length → m ≠ k) := by
  obtain ⟨k, hk, hm⟩ :=
    executeLoop_trying_masked invoke verbose keys keys.length 0 none a t m hmem
  refine ⟨k, hk, hm, fun hlen heq => ?_⟩
  have h10 : m.length = 10 := by
    subst hm
    simp [maskKey, Nat.min_eq_left (Nat.le_of_lt hlen)]
  rw [heq] at h10
  omega

/-- C8 amended witness: the 12-character credential `longKey` produces a
`trying` event displaying some pool credential's 10-character mask, which
differs from that credential's full value. -/
theorem execute_masks_credentials_witness :
    ∃ k, k ∈ [longKey] ∧ maskKey longKey = maskKey k ∧
      (10 < k.length → maskKey longKey ≠ k) :=
  execute_masks_credentials alwaysOk true [longKey] 1 1 (maskKey longKey)
    (by decide)

/-- C9: the engine never mutates the caller's credential pool: running any
number of steps of the `_execute` loop from the entry state leaves the key
list identical — same length, elements and order — whether the run is still
going, has returned a result, or has raised an error. -/
theorem execute_never_mutates_pool (invoke : Credential → CallOutcome α ε)
    (keys : List Credential) (n : Nat) :
    (engineRun invoke n (engineStart keys)).apiKeys = keys :=
  engineRun_apiKeys invoke n (engineStart keys)

/-- C10: the LiteLLM adapter's `_call` passes the completion function a
keyword mapping whose `api_key` entry is exactly the credential of the current
attempt — any caller-supplied `api_key` is overwritten — every other entry is
unchanged, and the caller's own mapping is untouched by the call. -/
theorem litellm_injects_api_key (apiKey : Credential) (kwargs : Kwargs) :
    dictGet (litellmCall apiKey kwargs).1 apiKeyField = some apiKey ∧
    (∀ k2, k2 ≠ apiKeyField →
      dictGet (litellmCall apiKey kwargs).1 k2 = dictGet kwargs k2) ∧
    (litellmCall apiKey kwargs).2 = kwargs :=
  ⟨dictGet_dictSet_same kwargs apiKeyField apiKey,
   fun k2 hk2 => dictGet_dictSet_other kwargs apiKeyField k2 apiKey hk2,
   rfl⟩

/-- C10 witness: with caller kwargs carrying a stale `api_key` "o" and a
`model` entry, the call built for credential "x" carries `api_key` = "x"
while `model` is unchanged, and the caller mapping survives intact. -/
theorem litellm_injects_api_key_witness :
    dictGet (litellmCall ['x'] demoKwargs).1 apiKeyField = some ['x'] ∧
    dictGet (litellmCall ['x'] demoKwargs).1 modelField
      = dictGet demoKwargs modelField ∧
    (litellmCall ['x'] demoKwargs).2 = demoKwargs := by
  have h := litellm_injects_api_key ['x'] demoKwargs
  exact ⟨h.1, h.2.1 modelField (by decide), h.2.2⟩

end Mooch
